import Mathlib

set_option maxHeartbeats 1000000
set_option maxRecDepth 8000

/-!
Shallow embedding of the PDF form generator engine (src/index.js).
JS strings are modelled as lists of characters, JS numbers as rationals,
JS falsy-or chains (`a || b`) by explicit helpers with 0/"" falsy.
-/

abbrev Str := List Char

/-- JS whitespace characters recognised by trim / the regex class \s
(ASCII portion). -/
def jsWs (c : Char) : Bool :=
  c == ' ' || c == '\t' || c == '\n' || c == '\r' || c == '\x0B' || c == '\x0C'

/-- JS String.prototype.trim. -/
def jsTrim (s : Str) : Str :=
  ((s.dropWhile jsWs).reverse.dropWhile jsWs).reverse

/-- JS String.prototype.toLowerCase (ASCII). -/
def jsToLower (s : Str) : Str := s.map Char.toLower

/-- JS String.prototype.includes: `includesStr hay needle` is
`hay.includes(needle)`. -/
def includesStr : Str → Str → Bool
  | [], needle => needle.isEmpty
  | c :: t, needle => List.isPrefixOf needle (c :: t) || includesStr t needle

/-- JS String.prototype.substring with clamping and argument swapping. -/
def jsSubstring (t : Str) (a b : Nat) : Str :=
  let a2 := min a t.length
  let b2 := min b t.length
  (t.drop (min a2 b2)).take (max a2 b2 - min a2 b2)

/-- The regex character class [a-zA-Z0-9]. -/
def isAlnumCh (c : Char) : Bool :=
  decide (('a' ≤ c ∧ c ≤ 'z') ∨ ('A' ≤ c ∧ c ≤ 'Z') ∨ ('0' ≤ c ∧ c ≤ '9'))

/-- JS `a || d` for an optionally-present number (0 is falsy). -/
def jsOrQ (o : Option ℚ) (d : ℚ) : ℚ :=
  match o with
  | some v => if v = 0 then d else v
  | none => d

/-- JS `a || d` for an optionally-present string ("" is falsy). -/
def jsOrS (o : Option Str) (d : Str) : Str :=
  match o with
  | some s => if s = [] then d else s
  | none => d

/-- JS `arr[i] || d` for an array of numbers (missing index or 0 falls back). -/
def jsIdxOr (l : List ℚ) (i : Nat) (d : ℚ) : ℚ :=
  match l.get? i with
  | some v => if v = 0 then d else v
  | none => d

/-- The decimal digit character for d (meaningful for d < 10). -/
def digitChar (d : Nat) : Char := Char.ofNat (48 + d)

/-- Numeric value of a decimal digit character. -/
def charVal (c : Char) : Nat := c.toNat - 48

/-- Decimal digits of n, least significant first, with explicit fuel. -/
def natToDigitsRev : Nat → Nat → Str
  | 0, _ => []
  | fuel + 1, n =>
    if n < 10 then [digitChar n]
    else digitChar (n % 10) :: natToDigitsRev fuel (n / 10)

/-- JS template interpolation of a nonnegative integer (decimal). -/
def natRepr (n : Nat) : Str := (natToDigitsRev (n + 1) n).reverse

/-- Value of a digit string, least significant digit first. -/
def ofRevDigits : Str → Nat
  | [] => 0
  | c :: cs => charVal c + 10 * ofRevDigits cs

/-- Value of a decimal digit string, most significant digit first. -/
def decodeDigits (s : Str) : Nat := ofRevDigits s.reverse

/-- JS template interpolation of an integer (decimal, with sign). -/
def intRepr (p : Int) : Str :=
  if p < 0 then '-' :: natRepr p.natAbs else natRepr p.toNat

/-- Recover the numeric index component from a generated field name:
the digits that follow the first underscore. -/
def nameIdx (s : Str) : Nat :=
  decodeDigits (((s.dropWhile (fun c => !(c == '_'))).drop 1).takeWhile Char.isDigit)

/-- The field-type strings produced by the engine. -/
inductive FieldType where
  | text
  | date
  | name
  | address
  | phone
  | email
  | currency
  | signature
  | checkbox
  | radio
deriving DecidableEq

/-- The string the source uses for each field type. -/
def ftName : FieldType → Str
  | .text => "text".toList
  | .date => "date".toList
  | .name => "name".toList
  | .address => "address".toList
  | .phone => "phone".toList
  | .email => "email".toList
  | .currency => "currency".toList
  | .signature => "signature".toList
  | .checkbox => "checkbox".toList
  | .radio => "radio".toList

/-- The keys of the width-factor table, in the source's insertion order. -/
def fontFactorKeys : List Str :=
  ["Helvetica".toList, "Helvetica-Bold".toList, "Times".toList,
   "Times-Roman".toList, "Times-Bold".toList, "Courier".toList,
   "Courier-Bold".toList, "Arial".toList, "Arial-Bold".toList,
   "Arial,Bold".toList]

/-- getFontWidthFactor: first table key (in insertion order) that is a
substring of the font name wins; unmatched names get 0.55. -/
def getFontWidthFactor (fontName : Str) : ℚ :=
  if !fontName.isEmpty && includesStr fontName ("Helvetica".toList) then 0.55
  else if !fontName.isEmpty && includesStr fontName ("Helvetica-Bold".toList) then 0.58
  else if !fontName.isEmpty && includesStr fontName ("Times".toList) then 0.48
  else if !fontName.isEmpty && includesStr fontName ("Times-Roman".toList) then 0.48
  else if !fontName.isEmpty && includesStr fontName ("Times-Bold".toList) then 0.52
  else if !fontName.isEmpty && includesStr fontName ("Courier".toList) then 0.6
  else if !fontName.isEmpty && includesStr fontName ("Courier-Bold".toList) then 0.6
  else if !fontName.isEmpty && includesStr fontName ("Arial".toList) then 0.55
  else if !fontName.isEmpty && includesStr fontName ("Arial-Bold".toList) then 0.58
  else if !fontName.isEmpty && includesStr fontName ("Arial,Bold".toList) then 0.58
  else 0.55

def getCharWidth (fontName : Str) (fontSize : ℚ) : ℚ :=
  fontSize * getFontWidthFactor fontName

/-- Advance of one character in calculateCharacterPositions. -/
def charAdvance (baseCharWidth fontSize : ℚ) (c : Char) : ℚ :=
  if c = ' ' then baseCharWidth * 0.3
  else if c = '(' ∨ c = ')' ∨ c = '[' ∨ c = ']' then baseCharWidth * 0.4
  else if c = '☐' ∨ c = '□' then fontSize * 0.9
  else if c = '.' then baseCharWidth * 0.25
  else if c = ',' then baseCharWidth * 0.3
  else baseCharWidth

def calcPositionsAux (baseW fontSize : ℚ) : Str → ℚ → List ℚ
  | [], _ => []
  | c :: rest, currentX =>
      currentX :: calcPositionsAux baseW fontSize rest (currentX + charAdvance baseW fontSize c)

def calculateCharacterPositions (text : Str) (startX : ℚ) (fontName : Str) (fontSize : ℚ) : List ℚ :=
  calcPositionsAux (getCharWidth fontName fontSize) fontSize text startX

/-- One underscore segment: character-offset range and underscore count. -/
structure USeg where
  startIndex : Nat
  endIndex : Nat
  length : Nat
deriving DecidableEq

/-- Loop body of findUnderscoreSegments, processing the remaining text
one character at a time; i is the current index into the full text of
length n. -/
def fusAux (n minLength : Nat) : Str → Nat → Bool → Nat → Nat → List USeg → List USeg
  | [], _, inU, start, cnt, segs =>
    if inU then
      (if minLength ≤ cnt then segs ++ [⟨start, n - 1, cnt⟩] else segs)
    else segs
  | c :: rest, i, inU, start, cnt, segs =>
    if c = '_' then
      if inU then fusAux n minLength rest (i + 1) true start (cnt + 1) segs
      else fusAux n minLength rest (i + 1) true i 1 segs
    else if inU then
      let isBreak := isAlnumCh c || (c == ' ' && rest.head? == some ' ')
                     || (c == ',' && !(rest.head? == some '_'))
      if isBreak then
        if minLength ≤ cnt then
          fusAux n minLength rest (i + 1) false start 0 (segs ++ [⟨start, i - 1, cnt⟩])
        else fusAux n minLength rest (i + 1) false start 0 segs
      else fusAux n minLength rest (i + 1) true start cnt segs
    else fusAux n minLength rest (i + 1) false start cnt segs

def findUnderscoreSegments (text : Str) (minLength : Nat) : List USeg :=
  fusAux text.length minLength text 0 false 0 0 []

/-- Number of underscore characters in the inclusive offset range [s, e]. -/
def undCount (text : Str) (s e : Nat) : Nat :=
  ((text.drop s).take (e + 1 - s)).count '_'

/-- One checkbox/radio glyph match: field type, offset, match length. -/
structure CBMatch where
  fieldType : FieldType
  index : Nat
  length : Nat
deriving DecidableEq

/-- All offsets at which a single glyph character occurs. -/
def scanChar (text : Str) (c : Char) : List CBMatch :=
  (List.range text.length).filterMap
    (fun i => if text.get? i = some c then some ⟨.checkbox, i, 1⟩ else none)

/-- Match of the regex `open \s* close` starting at offset i: returns the
number of interior whitespace characters on success. -/
def matchBoxAt (text : Str) (openC closeC : Char) (i : Nat) : Option Nat :=
  if text.get? i = some openC then
    let k := ((text.drop (i + 1)).takeWhile jsWs).length
    if text.get? (i + 1 + k) = some closeC then some k else none
  else none

/-- Left-to-right non-overlapping scan of the text for `open \s* close`,
continuing after each match, with explicit fuel (one unit per step). -/
def scanBoxesAux (text : Str) (openC closeC : Char) (ft : FieldType) : Nat → Nat → List CBMatch
  | 0, _ => []
  | fuel + 1, i =>
    if i < text.length then
      match matchBoxAt text openC closeC i with
      | some k => ⟨ft, i, k + 2⟩ :: scanBoxesAux text openC closeC ft fuel (i + k + 2)
      | none => scanBoxesAux text openC closeC ft fuel (i + 1)
    else []

/-- Insert a match into a list sorted by ascending offset. -/
def insertByIdx (c : CBMatch) : List CBMatch → List CBMatch
  | [] => [c]
  | d :: ds => if c.index ≤ d.index then c :: d :: ds else d :: insertByIdx c ds

/-- JS Array.prototype.sort with comparator a.index - b.index. -/
def sortByIdx : List CBMatch → List CBMatch
  | [] => []
  | c :: cs => insertByIdx c (sortByIdx cs)

/-- detectCheckboxes: collect glyph and bracket/paren matches of all four
patterns, then sort by offset. -/
def detectCheckboxes (text : Str) : List CBMatch :=
  sortByIdx
    (scanChar text '☐' ++ scanChar text '□' ++
     scanBoxesAux text '[' ']' .checkbox text.length 0 ++
     scanBoxesAux text '(' ')' .radio text.length 0)

/-- The 4-float bounds array: indices 0..3 of the source's Bounds. -/
structure Bounds4 where
  x0 : ℚ
  y0 : ℚ
  x1 : ℚ
  y1 : ℚ
deriving DecidableEq

structure FontInfo where
  name : Option Str
  size : Option ℚ
  family_name : Option Str
deriving DecidableEq

/-- A raw extracted element; Text is optional (missing or non-string
content is modelled as none). -/
structure Elem where
  Text : Option Str
  Bounds : Bounds4
  Page : Int
  Font : Option FontInfo
  TextSize : Option ℚ
deriving DecidableEq

/-- A merged fragment (same shape, text known to be present). -/
structure Frag where
  Text : Str
  Bounds : Bounds4
  Page : Int
  Font : Option FontInfo
  TextSize : Option ℚ
deriving DecidableEq

def hasUnderscore (t : Str) : Bool := t.any (fun c => c == '_')

/-- The regex test /[☐□\[\]\(\)]/. -/
def hasCheckboxGlyph (t : Str) : Bool :=
  t.any (fun c => c == '☐' || c == '□' || c == '[' || c == ']' || c == '(' || c == ')')

/-- Merge condition of mergeMultilineElements: yDiff < 30, -10 <= xGap < 150. -/
def canMergeFrag (prev curr : Bounds4) : Bool :=
  decide (|curr.y0 - prev.y0| < 30 ∧ (-10 : ℚ) ≤ curr.x0 - prev.x1 ∧ curr.x0 - prev.x1 < 150)

def needSpaceB (a b : Str) : Bool :=
  !(a.getLast? == some ' ') && !(b.head? == some ' ')

/-- The in-place merge of an incoming element into the accumulator:
text is appended (with one space unless either side already has one) and
Bounds[1] takes the min, Bounds[2] and Bounds[3] the max; Bounds[0] is
left untouched. -/
def mergedFrag (a : Frag) (t : Str) (b : Bounds4) : Frag :=
  { Text := a.Text ++ (if needSpaceB a.Text t then [' '] else []) ++ t
    Bounds := ⟨a.Bounds.x0, min a.Bounds.y0 b.y0, max a.Bounds.x1 b.x1, max a.Bounds.y1 b.y1⟩
    Page := a.Page
    Font := a.Font
    TextSize := a.TextSize }

def freshFrag (t : Str) (e : Elem) : Frag :=
  ⟨t, e.Bounds, e.Page, e.Font, e.TextSize⟩

def flushAcc (acc : Option Frag) : List Frag :=
  match acc with
  | some a => [a]
  | none => []

/-- One iteration of the mergeMultilineElements loop: returns the new
accumulator and the fragments flushed to the output by this iteration. -/
def mergeStep (acc : Option Frag) (e : Elem) : Option Frag × List Frag :=
  match e.Text with
  | none => (none, flushAcc acc)
  | some t =>
    if t = [] then (none, flushAcc acc)
    else if !(hasUnderscore t || hasCheckboxGlyph t) then (none, flushAcc acc)
    else
      match acc with
      | some a =>
        if e.Page = a.Page ∧ canMergeFrag a.Bounds e.Bounds then
          (some (mergedFrag a t e.Bounds), [])
        else (some (freshFrag t e), [a])
      | none => (some (freshFrag t e), [])

def mergeLoop (acc : Option Frag) : List Elem → List Frag
  | [] => flushAcc acc
  | e :: rest => (mergeStep acc e).2 ++ mergeLoop (mergeStep acc e).1 rest

def mergeMultilineElements (elements : List Elem) : List Frag :=
  mergeLoop none elements

/-- Context window around an indicator segment. -/
structure Ctx where
  before : Str
  after : Str
  full : Str
deriving DecidableEq

def getContext (text : Str) (startIndex endIndex : Nat) : Ctx :=
  let beforeStart := startIndex - 100
  let afterEnd := min text.length (endIndex + 100)
  let before := jsTrim (jsSubstring text beforeStart startIndex)
  let after := jsTrim (jsSubstring text (endIndex + 1) afterEnd)
  ⟨before, after, before ++ " _____ ".toList ++ after⟩

/-- The string guessFieldType searches:
(beforeLower + ' ' + afterLower + ' ' + text).toLowerCase(). -/
def combinedCtx (context : Ctx) (text : Str) : Str :=
  jsToLower (jsToLower context.before ++ [' '] ++ jsToLower context.after ++ [' '] ++ text)

/-- guessFieldType: keyword classification over the lowercased
before + ' ' + after + ' ' + text, signature keywords first. -/
def guessFieldType (context : Ctx) (text : Str) : FieldType :=
  let combined := combinedCtx context text
  if includesStr combined ("(sign)".toList) || includesStr combined ("signature:".toList)
     || includesStr combined ("signed by".toList) || includesStr combined ("sign:".toList)
     || includesStr combined ("by (sign)".toList) || includesStr combined ("signature".toList) then
    .signature
  else if includesStr combined ("$".toList) || includesStr combined ("amount of".toList)
     || includesStr combined ("sum of".toList) || includesStr combined ("price".toList)
     || includesStr combined ("earnest money".toList) || includesStr combined ("deposit".toList) then
    .currency
  else if includesStr combined ("date".toList) || includesStr combined ("day".toList)
     || includesStr combined ("month".toList) || includesStr combined ("year".toList)
     || includesStr combined ("this _____ day".toList)
     || includesStr combined ("made this day".toList) then
    .date
  else if includesStr combined ("name".toList) then .name
  else if includesStr combined ("address".toList) then .address
  else if includesStr combined ("phone".toList) || includesStr combined ("tel".toList) then .phone
  else if includesStr combined ("email".toList) || includesStr combined ("e-mail".toList) then .email
  else .text

/-- Split on runs of whitespace (the nonempty tokens of split(/\s+/)). -/
def splitWsAux : Str → Str → List Str
  | [], cur => if cur = [] then [] else [cur.reverse]
  | c :: rest, cur =>
    if jsWs c then
      (if cur = [] then splitWsAux rest [] else cur.reverse :: splitWsAux rest [])
    else splitWsAux rest (c :: cur)

def splitWsRuns (s : Str) : List Str := splitWsAux s []

/-- Characters kept by replace(/[^a-zA-Z0-9_]/g, ''). -/
def keepCh (c : Char) : Bool := isAlnumCh c || c == '_'

/-- generateFieldName: checkbox/radio get type_index; otherwise the last
three >2-character words of context.before are slugged and appended. -/
def generateFieldName (context : Ctx) (index : Nat) (fieldType : FieldType) : Str :=
  if fieldType = .checkbox ∨ fieldType = .radio then
    ftName fieldType ++ ['_'] ++ natRepr index
  else
    let words := (splitWsRuns context.before).filter (fun w => 2 < w.length)
    let lastWords := (List.intercalate ['_'] (words.drop (words.length - 3))).filter keepCh
    if lastWords ≠ [] then
      ftName fieldType ++ ['_'] ++ natRepr index ++ ['_'] ++ lastWords
    else ftName fieldType ++ ['_'] ++ natRepr index

/-- The effective font size of an element:
element.Font?.size || element.TextSize || 12. -/
def effFontSize (e : Frag) : ℚ :=
  jsOrQ (e.Font.bind (fun f => f.size)) (jsOrQ e.TextSize 12)

/-- The effective font name of an element:
element.Font?.name || element.Font?.family_name || 'Arial'. -/
def effFontName (e : Frag) : Str :=
  jsOrS (e.Font.bind (fun f => f.name)) (jsOrS (e.Font.bind (fun f => f.family_name)) ("Arial".toList))

/-- One emitted field region (a fillableAreas entry). -/
structure Region where
  id : Nat
  field_name : Str
  page : Int
  x : ℚ
  y : ℚ
  width : ℚ
  height : ℚ
  field_type : FieldType
  context : Ctx
  font_size : ℚ
deriving DecidableEq

/-- Emit one region per list entry, threading the monotonically
increasing field index. -/
def emitWithIdx {α : Type} (f : α → Nat → Region) : List α → Nat → List Region
  | [], _ => []
  | a :: as, i => f a i :: emitWithIdx f as (i + 1)

/-- The region pushed for one checkbox/radio match. -/
def mkCheckboxRegion (e : Frag) (pos : List ℚ) (fs : ℚ) (cb : CBMatch) (idx : Nat) : Region :=
  { id := idx
    field_name := ftName cb.fieldType ++ ['_'] ++ natRepr idx
    page := e.Page
    x := jsIdxOr pos cb.index e.Bounds.x0
    y := e.Bounds.y0
    width := fs * 0.85
    height := fs * 0.85
    field_type := cb.fieldType
    context := ⟨jsSubstring e.Text (cb.index - 50) cb.index,
                jsSubstring e.Text (cb.index + cb.length) (min e.Text.length (cb.index + 100)),
                e.Text⟩
    font_size := fs }

/-- The region pushed for one underscore segment. -/
def mkUnderscoreRegion (e : Frag) (pos : List ℚ) (fs charW : ℚ) (seg : USeg) (idx : Nat) : Region :=
  let startX := jsIdxOr pos seg.startIndex e.Bounds.x0
  let endX := jsIdxOr pos seg.endIndex (startX + (seg.length : ℚ) * charW)
  let width := max (endX - startX) 20
  let context := getContext e.Text seg.startIndex seg.endIndex
  let fieldType := guessFieldType context e.Text
  { id := idx
    field_name := generateFieldName context idx fieldType
    page := e.Page
    x := startX
    y := e.Bounds.y0
    width := width
    height := e.Bounds.y1 - e.Bounds.y0
    field_type := fieldType
    context := context
    font_size := fs * 0.7 }

/-- The detection loop body for one merged element: checkbox/radio
regions first, then underscore regions, threading fieldIndex. -/
def detectElement (e : Frag) (startIdx : Nat) : List Region × Nat :=
  let fs := effFontSize e
  let fn := effFontName e
  let pos := calculateCharacterPositions e.Text e.Bounds.x0 fn fs
  let charW := getCharWidth fn fs
  let cbs := detectCheckboxes e.Text
  let cbRegions := emitWithIdx (fun cb i => mkCheckboxRegion e pos fs cb i) cbs startIdx
  let idx2 := startIdx + cbs.length
  let segs := if '_' ∈ e.Text then findUnderscoreSegments e.Text 2 else []
  let usRegions := emitWithIdx (fun sg i => mkUnderscoreRegion e pos fs charW sg i) segs idx2
  (cbRegions ++ usRegions, idx2 + segs.length)

def detectLoop : List Frag → Nat → List Region
  | [], _ => []
  | f :: rest, idx => (detectElement f idx).1 ++ detectLoop rest (detectElement f idx).2

/-- The detection pipeline of the /process endpoint: merge, then detect,
with fieldIndex starting at 1. -/
def processRegions (elements : List Elem) : List Region :=
  detectLoop (mergeMultilineElements elements) 1

/-- Outcome of the /process endpoint up to the external fetch boundary:
either a 400 validation error, the early zero-regions success response
(returned before any fetch), or a fetch followed by materialization. -/
inductive ProcessOutcome where
  | badRequest (error : Str)
  | emptyResult (success : Bool) (pdf_base64 : Option Str)
      (detected_areas created_fields : Nat) (fields : List Region) (message : Str)
  | fetchAndCreate (pdf_url : Str) (areas : List Region)
deriving DecidableEq

def processEndpoint (pdf_url : Option Str) (extract_elements : Option (List Elem)) : ProcessOutcome :=
  match pdf_url with
  | none => .badRequest ("pdf_url is required".toList)
  | some url =>
    if url = [] then .badRequest ("pdf_url is required".toList)
    else
      match extract_elements with
      | none => .badRequest ("extract_elements array is required".toList)
      | some els =>
        let fillableAreas := processRegions els
        if fillableAreas = [] then
          .emptyResult true none 0 0 [] ("No form fields found in PDF".toList)
        else .fetchAndCreate url fillableAreas

/-- Page dimensions used by the materialization loop. -/
structure PageDim where
  width : ℚ
  height : ℚ
deriving DecidableEq

/-- pages[area.page]: negative or out-of-range indices are undefined. -/
def pageLookup (pages : List PageDim) (p : Int) : Option PageDim :=
  if p < 0 then none else pages.get? p.toNat

/-- A createdFields entry (width recorded only for text-like fields). -/
structure Placed where
  id : Nat
  name : Str
  ftype : FieldType
  page : Int
  x : ℚ
  y : ℚ
  width : Option ℚ
deriving DecidableEq

/-- Placement of one region: fails exactly when the referenced page does
not exist, otherwise clamps the rectangle into the page. -/
def placeArea (pages : List PageDim) (a : Region) : Except Str Placed :=
  match pageLookup pages a.page with
  | none => .error (a.field_name ++ ": Page ".toList ++ intRepr a.page ++ " not found".toList)
  | some pg =>
    let safeX := max 0 (min a.x (pg.width - 10))
    let safeY := max 0 (min a.y (pg.height - 5))
    let safeW := max 10 (min a.width (pg.width - safeX))
    let _safeH := max 5 (min a.height (pg.height - safeY))
    if a.field_type = .checkbox ∨ a.field_type = .radio then
      .ok ⟨a.id, a.field_name, a.field_type, a.page, safeX, safeY, none⟩
    else
      .ok ⟨a.id, a.field_name, a.field_type, a.page, safeX, safeY, some safeW⟩

/-- Aggregated result of the per-area materialization loop. -/
structure MatResult where
  success : Nat
  errors : Nat
  created : List Placed
  messages : List Str
deriving DecidableEq

/-- The per-area loop: a failed placement is recorded and the loop
continues with the remaining areas. -/
def materializeLoop (pages : List PageDim) : List Region → MatResult
  | [] => ⟨0, 0, [], []⟩
  | a :: rest =>
    match placeArea pages a with
    | .ok p =>
      let r := materializeLoop pages rest
      ⟨r.success + 1, r.errors, p :: r.created, r.messages⟩
    | .error m =>
      let r := materializeLoop pages rest
      ⟨r.success, r.errors + 1, r.created, m :: r.messages⟩

/-- error_details of the final response: at most the first 10 messages,
absent when there were no errors. -/
def errorDetails (errs : List Str) : Option (List Str) :=
  if errs = [] then none else some (errs.take 10)

/-! ### Helper lemmas -/

theorem getFontWidthFactor_pos (fontName : Str) : 0 < getFontWidthFactor fontName := by
  unfold getFontWidthFactor
  repeat' split
  all_goals norm_num

theorem charAdvance_nonneg (baseW fontSize : ℚ) (hb : 0 ≤ baseW) (hf : 0 ≤ fontSize)
    (c : Char) : 0 ≤ charAdvance baseW fontSize c := by
  unfold charAdvance
  repeat' split
  all_goals first
    | exact hb
    | exact mul_nonneg hb (by norm_num)
    | exact mul_nonneg hf (by norm_num)

theorem calcPositionsAux_length (baseW fontSize : ℚ) (t : Str) (x : ℚ) :
    (calcPositionsAux baseW fontSize t x).length = t.length := by
  induction t generalizing x with
  | nil => rfl
  | cons c rest ih => simp [calcPositionsAux, ih]

theorem calcPositionsAux_head (baseW fontSize : ℚ) (t : Str) (x : ℚ) (h : t ≠ []) :
    (calcPositionsAux baseW fontSize t x).head? = some x := by
  cases t with
  | nil => exact absurd rfl h
  | cons c rest => rfl

theorem calcPositionsAux_chain (baseW fontSize : ℚ) (hb : 0 ≤ baseW) (hf : 0 ≤ fontSize)
    (t : Str) : ∀ x : ℚ, List.Chain' (· ≤ ·) (calcPositionsAux baseW fontSize t x) := by
  induction t with
  | nil => intro x; simp [calcPositionsAux]
  | cons c rest ih =>
    intro x
    rw [calcPositionsAux, List.chain'_cons']
    refine ⟨?_, ih _⟩
    intro y hy
    cases rest with
    | nil => simp [calcPositionsAux] at hy
    | cons d ds =>
      rw [calcPositionsAux_head _ _ _ _ (by simp)] at hy
      simp only [Option.mem_def, Option.some.injEq] at hy
      subst hy
      exact le_add_of_nonneg_right (charAdvance_nonneg _ _ hb hf c)

/-! ### Claim C4: character positioner -/

/-- Claim C4: for every text, startX, font name and fontSize >= 0, the
character positioner returns one x-coordinate per character, the first
position equals startX when the text is nonempty, and consecutive
positions are monotonically non-decreasing. -/
theorem calculateCharacterPositions_spec (text : Str) (startX : ℚ) (fontName : Str)
    (fontSize : ℚ) (h : 0 ≤ fontSize) :
    (calculateCharacterPositions text startX fontName fontSize).length = text.length ∧
    (text ≠ [] →
      (calculateCharacterPositions text startX fontName fontSize).head? = some startX) ∧
    List.Chain' (· ≤ ·) (calculateCharacterPositions text startX fontName fontSize) := by
  refine ⟨calcPositionsAux_length _ _ _ _, fun ht => calcPositionsAux_head _ _ _ _ ht, ?_⟩
  exact calcPositionsAux_chain _ _
    (mul_nonneg h (le_of_lt (getFontWidthFactor_pos fontName))) h _ _

theorem calculateCharacterPositions_spec_witness :
    (0 : ℚ) ≤ 12 ∧
    ((calculateCharacterPositions ("ab".toList) 5 ("Arial".toList) 12).length =
        ("ab".toList).length ∧
     ("ab".toList ≠ [] →
        (calculateCharacterPositions ("ab".toList) 5 ("Arial".toList) 12).head? = some 5) ∧
     List.Chain' (· ≤ ·) (calculateCharacterPositions ("ab".toList) 5 ("Arial".toList) 12)) :=
  ⟨by norm_num, calculateCharacterPositions_spec _ _ _ _ (by norm_num)⟩

/-! ### Claim C7: width-factor table -/

/-- Claim C7 counterexample: "Helvetica-Bold" matches the key "Helvetica"
first (substring match in insertion order), so its factor equals the
regular family's 0.55 and is not strictly greater. -/
theorem getFontWidthFactor_bold_cex :
    getFontWidthFactor ("Helvetica-Bold".toList) = 0.55 ∧
    getFontWidthFactor ("Helvetica".toList) = 0.55 ∧
    ¬ getFontWidthFactor ("Helvetica".toList) < getFontWidthFactor ("Helvetica-Bold".toList) := by
  refine ⟨rfl, rfl, ?_⟩
  have h1 : getFontWidthFactor ("Helvetica-Bold".toList) = 0.55 := rfl
  have h2 : getFontWidthFactor ("Helvetica".toList) = 0.55 := rfl
  rw [h1, h2]
  exact lt_irrefl _

/-- Claim C7 amended: the matched families get their table values
(Helvetica 0.55, Times 0.48, Courier 0.6), unmatched names get the
default 0.55, and every bold variant gets the same factor as the
corresponding regular family (the regular key matches first by
substring), not a strictly larger one. -/
theorem getFontWidthFactor_amended :
    (getFontWidthFactor ("Helvetica".toList) = 0.55 ∧
     getFontWidthFactor ("Times".toList) = 0.48 ∧
     getFontWidthFactor ("Courier".toList) = 0.6 ∧
     getFontWidthFactor ("Helvetica-Bold".toList) = getFontWidthFactor ("Helvetica".toList) ∧
     getFontWidthFactor ("Times-Bold".toList) = getFontWidthFactor ("Times".toList) ∧
     getFontWidthFactor ("Courier-Bold".toList) = getFontWidthFactor ("Courier".toList) ∧
     getFontWidthFactor ("Arial-Bold".toList) = getFontWidthFactor ("Arial".toList)) ∧
    ∀ fontName : Str, (∀ k ∈ fontFactorKeys, includesStr fontName k = false) →
      getFontWidthFactor fontName = 0.55 := by
  refine ⟨⟨rfl, rfl, rfl, rfl, rfl, rfl, rfl⟩, ?_⟩
  intro fontName h
  have k1 := h _ (show "Helvetica".toList ∈ fontFactorKeys by decide)
  have k2 := h _ (show "Helvetica-Bold".toList ∈ fontFactorKeys by decide)
  have k3 := h _ (show "Times".toList ∈ fontFactorKeys by decide)
  have k4 := h _ (show "Times-Roman".toList ∈ fontFactorKeys by decide)
  have k5 := h _ (show "Times-Bold".toList ∈ fontFactorKeys by decide)
  have k6 := h _ (show "Courier".toList ∈ fontFactorKeys by decide)
  have k7 := h _ (show "Courier-Bold".toList ∈ fontFactorKeys by decide)
  have k8 := h _ (show "Arial".toList ∈ fontFactorKeys by decide)
  have k9 := h _ (show "Arial-Bold".toList ∈ fontFactorKeys by decide)
  have k10 := h _ (show "Arial,Bold".toList ∈ fontFactorKeys by decide)
  unfold getFontWidthFactor
  rw [k1, k2, k3, k4, k5, k6, k7, k8, k9, k10]
  simp

theorem getFontWidthFactor_amended_witness :
    (∀ k ∈ fontFactorKeys, includesStr ("Foo".toList) k = false) ∧
    getFontWidthFactor ("Foo".toList) = 0.55 :=
  ⟨by decide, getFontWidthFactor_amended.2 _ (by decide)⟩

/-! ### Claim C2: classifier signature priority -/

/-- Claim C2 counterexample: a context containing the keyword "sign"
(claimed to classify as signature) together with a dollar amount is
classified as currency, because the source's signature keyword list is
'(sign)', 'signature:', 'signed by', 'sign:', 'by (sign)', 'signature'
and bare "sign" matches none of them. -/
theorem guessFieldType_sign_cex :
    guessFieldType ⟨"pay $100 and sign".toList, [], []⟩ [] = FieldType.currency ∧
    FieldType.currency ≠ FieldType.signature := by
  exact ⟨by decide, by decide⟩

/-- Claim C2 amended: classification checks signature keywords first: a
context whose combined search string contains any of '(sign)',
'signature:', 'signed by', 'sign:', 'by (sign)' or 'signature' is
classified as signature even when currency or date keywords are also
present (in particular, a context containing both "signature" and "$100"
classifies as signature, never currency); bare "sign" or "initial" alone
are not signature keywords in this version. -/
theorem guessFieldType_signature_priority (context : Ctx) (text : Str)
    (h : includesStr (combinedCtx context text) ("(sign)".toList) = true ∨
         includesStr (combinedCtx context text) ("signature:".toList) = true ∨
         includesStr (combinedCtx context text) ("signed by".toList) = true ∨
         includesStr (combinedCtx context text) ("sign:".toList) = true ∨
         includesStr (combinedCtx context text) ("by (sign)".toList) = true ∨
         includesStr (combinedCtx context text) ("signature".toList) = true) :
    guessFieldType context text = FieldType.signature := by
  have hc : (includesStr (combinedCtx context text) ("(sign)".toList) ||
      includesStr (combinedCtx context text) ("signature:".toList) ||
      includesStr (combinedCtx context text) ("signed by".toList) ||
      includesStr (combinedCtx context text) ("sign:".toList) ||
      includesStr (combinedCtx context text) ("by (sign)".toList) ||
      includesStr (combinedCtx context text) ("signature".toList)) = true := by
    rcases h with h | h | h | h | h | h <;> simp at h ⊢ <;> tauto
  simp only [guessFieldType]
  rw [hc]
  simp

theorem guessFieldType_signature_priority_witness :
    (includesStr (combinedCtx ⟨"Signature: $100".toList, [], []⟩ []) ("(sign)".toList) = true ∨
     includesStr (combinedCtx ⟨"Signature: $100".toList, [], []⟩ []) ("signature:".toList) = true ∨
     includesStr (combinedCtx ⟨"Signature: $100".toList, [], []⟩ []) ("signed by".toList) = true ∨
     includesStr (combinedCtx ⟨"Signature: $100".toList, [], []⟩ []) ("sign:".toList) = true ∨
     includesStr (combinedCtx ⟨"Signature: $100".toList, [], []⟩ []) ("by (sign)".toList) = true ∨
     includesStr (combinedCtx ⟨"Signature: $100".toList, [], []⟩ []) ("signature".toList) = true) ∧
    guessFieldType ⟨"Signature: $100".toList, [], []⟩ [] = FieldType.signature :=
  ⟨by decide, guessFieldType_signature_priority _ _ (by decide)⟩

/-! ### Claim C8: zero-regions short circuit -/

/-- Claim C8: when the element list yields zero detected regions, the
process endpoint returns the successful early response with zero counts,
no document, an explanatory message — and never the fetch-and-create
outcome, so no document fetch is attempted. -/
theorem processEndpoint_zero_regions (url : Str) (elements : List Elem)
    (hu : url ≠ []) (h : processRegions elements = []) :
    processEndpoint (some url) (some elements) =
      ProcessOutcome.emptyResult true none 0 0 [] ("No form fields found in PDF".toList) ∧
    ∀ u areas, processEndpoint (some url) (some elements) ≠
      ProcessOutcome.fetchAndCreate u areas := by
  have he : processEndpoint (some url) (some elements) =
      ProcessOutcome.emptyResult true none 0 0 [] ("No form fields found in PDF".toList) := by
    simp only [processEndpoint]
    rw [if_neg hu, if_pos h]
  refine ⟨he, ?_⟩
  intro u areas hcon
  rw [he] at hcon
  exact ProcessOutcome.noConfusion hcon

theorem processEndpoint_zero_regions_witness :
    ("u".toList ≠ [] ∧ processRegions ([] : List Elem) = []) ∧
    (processEndpoint (some ("u".toList)) (some ([] : List Elem)) =
      ProcessOutcome.emptyResult true none 0 0 [] ("No form fields found in PDF".toList) ∧
     ∀ u areas, processEndpoint (some ("u".toList)) (some ([] : List Elem)) ≠
      ProcessOutcome.fetchAndCreate u areas) :=
  ⟨⟨by decide, rfl⟩, processEndpoint_zero_regions _ _ (by decide) rfl⟩

/-! ### Claim C9: per-region error isolation -/

theorem placeArea_of_lookup_none (pages : List PageDim) (a : Region)
    (h : pageLookup pages a.page = none) :
    placeArea pages a =
      Except.error (a.field_name ++ ": Page ".toList ++ intRepr a.page ++ " not found".toList) := by
  simp [placeArea, h]

theorem placeArea_of_lookup_some (pages : List PageDim) (a : Region) (pg : PageDim)
    (h : pageLookup pages a.page = some pg) : ∃ p, placeArea pages a = Except.ok p := by
  simp only [placeArea, h]
  split
  · exact ⟨_, rfl⟩
  · exact ⟨_, rfl⟩

theorem errorDetails_le10 (errs : List Str) (l : List Str)
    (h : errorDetails errs = some l) : l.length ≤ 10 := by
  unfold errorDetails at h
  split at h
  · exact absurd h (by simp)
  · rw [Option.some_inj] at h
    subst h
    calc (errs.take 10).length = min 10 errs.length := List.length_take 10 errs
    _ ≤ 10 := min_le_left _ _

/-- Claim C9: every region is processed (success and error counts sum to
the number of regions), a region whose page does not exist is recorded as
a per-region error message without aborting the remaining regions (the
error list is exactly the failed regions' messages, the created list is
exactly as long as the success count), and the reported error_details
sample is capped at 10 messages. -/
theorem materializeLoop_isolation (pages : List PageDim) (areas : List Region) :
    (materializeLoop pages areas).success + (materializeLoop pages areas).errors =
      areas.length ∧
    (materializeLoop pages areas).created.length = (materializeLoop pages areas).success ∧
    (materializeLoop pages areas).messages =
      (areas.filter (fun a => (pageLookup pages a.page).isNone)).map
        (fun a => a.field_name ++ ": Page ".toList ++ intRepr a.page ++ " not found".toList) ∧
    (materializeLoop pages areas).success =
      (areas.filter (fun a => (pageLookup pages a.page).isSome)).length ∧
    ∀ l, errorDetails (materializeLoop pages areas).messages = some l → l.length ≤ 10 := by
  induction areas with
  | nil =>
    refine ⟨rfl, rfl, rfl, rfl, ?_⟩
    intro l hl
    exact errorDetails_le10 _ _ hl
  | cons a rest ih =>
    obtain ⟨ih1, ih2, ih3, ih4, _⟩ := ih
    cases hpl : pageLookup pages a.page with
    | none =>
      have hpa := placeArea_of_lookup_none pages a hpl
      refine ⟨?_, ?_, ?_, ?_, ?_⟩
      · simp only [materializeLoop, hpa]
        simp only [List.length_cons]
        omega
      · simp only [materializeLoop, hpa]
        exact ih2
      · simp only [materializeLoop, hpa, List.filter_cons, hpl]
        simp [ih3]
      · simp only [materializeLoop, hpa, List.filter_cons, hpl]
        simp [ih4]
      · intro l hl
        exact errorDetails_le10 _ _ hl
    | some pg =>
      obtain ⟨p, hpa⟩ := placeArea_of_lookup_some pages a pg hpl
      refine ⟨?_, ?_, ?_, ?_, ?_⟩
      · simp only [materializeLoop, hpa]
        simp only [List.length_cons]
        omega
      · simp only [materializeLoop, hpa]
        simp [ih2]
      · simp only [materializeLoop, hpa, List.filter_cons, hpl]
        simp [ih3]
      · simp only [materializeLoop, hpa, List.filter_cons, hpl]
        simp [ih4]
      · intro l hl
        exact errorDetails_le10 _ _ hl

theorem materializeLoop_isolation_witness :
    (errorDetails (materializeLoop []
        [⟨1, "text_1".toList, 0, 100, 700, 20, 12, .text, ⟨[], [], []⟩, 8⟩]).messages =
      some ["text_1: Page 0 not found".toList]) ∧
    (["text_1: Page 0 not found".toList] : List Str).length ≤ 10 :=
  ⟨by decide,
   (materializeLoop_isolation []
      [⟨1, "text_1".toList, 0, 100, 700, 20, 12, .text, ⟨[], [], []⟩, 8⟩]).2.2.2.2
      _ (by decide)⟩

/-! ### Membership helpers for the detection pipeline -/

theorem mem_emitWithIdx {α : Type} (f : α → Nat → Region) (l : List α) (i : Nat)
    (r : Region) (h : r ∈ emitWithIdx f l i) : ∃ a j, a ∈ l ∧ i ≤ j ∧ r = f a j := by
  induction l generalizing i with
  | nil => simp [emitWithIdx] at h
  | cons a as ih =>
    rw [emitWithIdx] at h
    rcases List.mem_cons.mp h with h | h
    · exact ⟨a, i, List.mem_cons_self a as, le_refl i, h⟩
    · obtain ⟨b, j, hb, hj, hr⟩ := ih (i + 1) h
      exact ⟨b, j, List.mem_cons_of_mem a hb, le_trans (Nat.le_succ i) hj, hr⟩

theorem mem_insertByIdx (x c : CBMatch) (l : List CBMatch) :
    x ∈ insertByIdx c l ↔ x = c ∨ x ∈ l := by
  induction l with
  | nil => simp [insertByIdx]
  | cons d ds ih =>
    rw [insertByIdx]
    split
    · simp
    · simp only [List.mem_cons, ih]
      tauto

theorem mem_sortByIdx (x : CBMatch) (l : List CBMatch) :
    x ∈ sortByIdx l ↔ x ∈ l := by
  induction l with
  | nil => simp [sortByIdx]
  | cons c cs ih => simp [sortByIdx, mem_insertByIdx, ih]

theorem scanChar_fieldType (t : Str) (c : Char) (cb : CBMatch) (h : cb ∈ scanChar t c) :
    cb.fieldType = FieldType.checkbox := by
  simp only [scanChar, List.mem_filterMap] at h
  obtain ⟨i, _, hi⟩ := h
  split at hi
  · rw [Option.some_inj] at hi
    subst hi
    rfl
  · exact absurd hi (by simp)

theorem scanBoxesAux_fieldType (t : Str) (oc cc : Char) (ft : FieldType) :
    ∀ (fuel i : Nat) (cb : CBMatch), cb ∈ scanBoxesAux t oc cc ft fuel i →
      cb.fieldType = ft := by
  intro fuel
  induction fuel with
  | zero => intro i cb h; simp [scanBoxesAux] at h
  | succ fuel ih =>
    intro i cb h
    rw [scanBoxesAux] at h
    split at h
    · split at h
      · rcases List.mem_cons.mp h with h | h
        · subst h; rfl
        · exact ih _ _ h
      · exact ih _ _ h
    · simp at h

theorem detectCheckboxes_fieldType (t : Str) (cb : CBMatch) (h : cb ∈ detectCheckboxes t) :
    cb.fieldType = FieldType.checkbox ∨ cb.fieldType = FieldType.radio := by
  rw [detectCheckboxes, mem_sortByIdx] at h
  rcases List.mem_append.mp h with h | h
  · rcases List.mem_append.mp h with h | h
    · rcases List.mem_append.mp h with h | h
      · exact Or.inl (scanChar_fieldType _ _ _ h)
      · exact Or.inl (scanChar_fieldType _ _ _ h)
    · exact Or.inl (scanBoxesAux_fieldType _ _ _ _ _ _ _ h)
  · exact Or.inr (scanBoxesAux_fieldType _ _ _ _ _ _ _ h)

theorem guessFieldType_not_checkbox (context : Ctx) (text : Str) :
    guessFieldType context text ≠ FieldType.checkbox ∧
    guessFieldType context text ≠ FieldType.radio := by
  simp only [guessFieldType]
  repeat' split
  all_goals exact ⟨by decide, by decide⟩

theorem jsOrQ_ne_zero (o : Option ℚ) (d : ℚ) (hd : d ≠ 0) : jsOrQ o d ≠ 0 := by
  cases o with
  | none => simp only [jsOrQ]; exact hd
  | some v =>
    by_cases hv : v = 0
    · simp only [jsOrQ, hv, if_pos]; exact hd
    · simp only [jsOrQ, hv, if_neg, if_false]; exact hv

theorem effFontSize_ne_zero (e : Frag) : effFontSize e ≠ 0 :=
  jsOrQ_ne_zero _ _ (jsOrQ_ne_zero _ _ (by norm_num))

/-- Decompose membership in the regions emitted for one element. -/
theorem mem_detectElement (e : Frag) (startIdx : Nat) (r : Region)
    (h : r ∈ (detectElement e startIdx).1) :
    (∃ cb j, cb ∈ detectCheckboxes e.Text ∧
      r = mkCheckboxRegion e
            (calculateCharacterPositions e.Text e.Bounds.x0 (effFontName e) (effFontSize e))
            (effFontSize e) cb j) ∨
    (∃ sg j, sg ∈ (if '_' ∈ e.Text then findUnderscoreSegments e.Text 2 else []) ∧
      r = mkUnderscoreRegion e
            (calculateCharacterPositions e.Text e.Bounds.x0 (effFontName e) (effFontSize e))
            (effFontSize e) (getCharWidth (effFontName e) (effFontSize e)) sg j) := by
  simp only [detectElement] at h
  rcases List.mem_append.mp h with h | h
  · obtain ⟨cb, j, hcb, _, hr⟩ := mem_emitWithIdx _ _ _ _ h
    exact Or.inl ⟨cb, j, hcb, hr⟩
  · obtain ⟨sg, j, hsg, _, hr⟩ := mem_emitWithIdx _ _ _ _ h
    exact Or.inr ⟨sg, j, hsg, hr⟩

theorem mkCheckboxRegion_font_size (e : Frag) (pos : List ℚ) (fs : ℚ) (cb : CBMatch)
    (idx : Nat) : (mkCheckboxRegion e pos fs cb idx).font_size = fs := rfl

theorem mkCheckboxRegion_field_type (e : Frag) (pos : List ℚ) (fs : ℚ) (cb : CBMatch)
    (idx : Nat) : (mkCheckboxRegion e pos fs cb idx).field_type = cb.fieldType := rfl

theorem mkUnderscoreRegion_font_size (e : Frag) (pos : List ℚ) (fs charW : ℚ)
    (sg : USeg) (idx : Nat) :
    (mkUnderscoreRegion e pos fs charW sg idx).font_size = fs * 0.7 := by
  simp only [mkUnderscoreRegion]

theorem mkUnderscoreRegion_field_type (e : Frag) (pos : List ℚ) (fs charW : ℚ)
    (sg : USeg) (idx : Nat) :
    (mkUnderscoreRegion e pos fs charW sg idx).field_type =
      guessFieldType (getContext e.Text sg.startIndex sg.endIndex) e.Text := by
  simp only [mkUnderscoreRegion]

/-! ### Claim C10: emitted font sizes -/

/-- Claim C10: a checkbox/radio region reports the source fragment's
effective font size unchanged, while an underscore-derived (text-like)
region reports exactly 0.7 times it, which is never equal to the
fragment's effective font size. -/
theorem detect_font_size_spec (e : Frag) (startIdx : Nat) (r : Region)
    (h : r ∈ (detectElement e startIdx).1) :
    ((r.field_type = FieldType.checkbox ∨ r.field_type = FieldType.radio) →
      r.font_size = effFontSize e) ∧
    (r.field_type ≠ FieldType.checkbox → r.field_type ≠ FieldType.radio →
      r.font_size = effFontSize e * 0.7 ∧ r.font_size ≠ effFontSize e) := by
  rcases mem_detectElement e startIdx r h with ⟨cb, j, hcb, hr⟩ | ⟨sg, j, _, hr⟩
  · rw [hr, mkCheckboxRegion_field_type, mkCheckboxRegion_font_size]
    refine ⟨fun _ => rfl, fun hc hrad => ?_⟩
    rcases detectCheckboxes_fieldType e.Text cb hcb with hft | hft
    · exact absurd hft hc
    · exact absurd hft hrad
  · rw [hr, mkUnderscoreRegion_field_type, mkUnderscoreRegion_font_size]
    refine ⟨fun hcon => ?_, fun _ _ => ⟨rfl, ?_⟩⟩
    · rcases hcon with hcon | hcon
      · exact absurd hcon (guessFieldType_not_checkbox _ _).1
      · exact absurd hcon (guessFieldType_not_checkbox _ _).2
    · intro hc
      apply effFontSize_ne_zero e
      linarith [hc]

theorem detect_font_size_spec_witness :
    ((⟨1, "text_1".toList, 0, 100, 700, 20, 12, FieldType.text,
        ⟨[], [], " _____ ".toList⟩, 8.4⟩ : Region) ∈
      (detectElement ⟨"__".toList, ⟨100, 700, 110, 712⟩, 0, none, none⟩ 1).1) ∧
    ((((⟨1, "text_1".toList, 0, 100, 700, 20, 12, FieldType.text,
        ⟨[], [], " _____ ".toList⟩, 8.4⟩ : Region).field_type = FieldType.checkbox ∨
       (⟨1, "text_1".toList, 0, 100, 700, 20, 12, FieldType.text,
        ⟨[], [], " _____ ".toList⟩, 8.4⟩ : Region).field_type = FieldType.radio) →
      (⟨1, "text_1".toList, 0, 100, 700, 20, 12, FieldType.text,
        ⟨[], [], " _____ ".toList⟩, 8.4⟩ : Region).font_size =
        effFontSize ⟨"__".toList, ⟨100, 700, 110, 712⟩, 0, none, none⟩) ∧
     ((⟨1, "text_1".toList, 0, 100, 700, 20, 12, FieldType.text,
        ⟨[], [], " _____ ".toList⟩, 8.4⟩ : Region).field_type ≠ FieldType.checkbox →
      (⟨1, "text_1".toList, 0, 100, 700, 20, 12, FieldType.text,
        ⟨[], [], " _____ ".toList⟩, 8.4⟩ : Region).field_type ≠ FieldType.radio →
      (⟨1, "text_1".toList, 0, 100, 700, 20, 12, FieldType.text,
        ⟨[], [], " _____ ".toList⟩, 8.4⟩ : Region).font_size =
        effFontSize ⟨"__".toList, ⟨100, 700, 110, 712⟩, 0, none, none⟩ * 0.7 ∧
      (⟨1, "text_1".toList, 0, 100, 700, 20, 12, FieldType.text,
        ⟨[], [], " _____ ".toList⟩, 8.4⟩ : Region).font_size ≠
        effFontSize ⟨"__".toList, ⟨100, 700, 110, 712⟩, 0, none, none⟩)) :=
  ⟨by norm_num +decide [detectElement, detectCheckboxes, scanChar, scanBoxesAux, matchBoxAt,
      sortByIdx, insertByIdx, effFontSize, effFontName, jsOrQ, jsOrS,
      calculateCharacterPositions, calcPositionsAux, getCharWidth, getFontWidthFactor,
      includesStr, charAdvance, findUnderscoreSegments, fusAux, isAlnumCh,
      mkUnderscoreRegion, mkCheckboxRegion, emitWithIdx, jsIdxOr, getContext, jsSubstring,
      jsTrim, jsWs, guessFieldType, combinedCtx, jsToLower, generateFieldName, splitWsRuns,
      splitWsAux, keepCh, natRepr, natToDigitsRev, digitChar, ftName, List.range,
      List.range.loop],
   detect_font_size_spec _ 1 _
     (by norm_num +decide [detectElement, detectCheckboxes, scanChar, scanBoxesAux, matchBoxAt,
      sortByIdx, insertByIdx, effFontSize, effFontName, jsOrQ, jsOrS,
      calculateCharacterPositions, calcPositionsAux, getCharWidth, getFontWidthFactor,
      includesStr, charAdvance, findUnderscoreSegments, fusAux, isAlnumCh,
      mkUnderscoreRegion, mkCheckboxRegion, emitWithIdx, jsIdxOr, getContext, jsSubstring,
      jsTrim, jsWs, guessFieldType, combinedCtx, jsToLower, generateFieldName, splitWsRuns,
      splitWsAux, keepCh, natRepr, natToDigitsRev, digitChar, ftName, List.range,
      List.range.loop])⟩

/-! ### Claim C5: underscore region geometry -/

theorem mkUnderscoreRegion_x (e : Frag) (pos : List ℚ) (fs charW : ℚ)
    (sg : USeg) (idx : Nat) :
    (mkUnderscoreRegion e pos fs charW sg idx).x = jsIdxOr pos sg.startIndex e.Bounds.x0 := by
  simp only [mkUnderscoreRegion]

theorem mkUnderscoreRegion_width (e : Frag) (pos : List ℚ) (fs charW : ℚ)
    (sg : USeg) (idx : Nat) :
    (mkUnderscoreRegion e pos fs charW sg idx).width =
      max (jsIdxOr pos sg.endIndex
            (jsIdxOr pos sg.startIndex e.Bounds.x0 + (sg.length : ℚ) * charW) -
           jsIdxOr pos sg.startIndex e.Bounds.x0) 20 := by
  simp only [mkUnderscoreRegion]

theorem mem_detectLoop (frags : List Frag) (idx : Nat) (r : Region)
    (h : r ∈ detectLoop frags idx) : ∃ f i, f ∈ frags ∧ r ∈ (detectElement f i).1 := by
  induction frags generalizing idx with
  | nil => simp [detectLoop] at h
  | cons f fs ih =>
    rw [detectLoop] at h
    rcases List.mem_append.mp h with h | h
    · exact ⟨f, idx, List.mem_cons_self f fs, h⟩
    · obtain ⟨g, i, hg, hr⟩ := ih _ h
      exact ⟨g, i, List.mem_cons_of_mem f hg, hr⟩

/-- Claim C5 counterexample: for the single element with text "__" and
Arial 12, the pipeline emits exactly one underscore region of width 20,
which is below the claimed floor of 30 (the source's minimum is
Math.max(..., 20), not 30). -/
theorem underscore_width_floor_cex :
    (processRegions [⟨some ("__".toList), ⟨100, 700, 110, 712⟩, 0, none, none⟩]).map
      (fun r => r.width) = [20] ∧ ¬ (30 : ℚ) ≤ 20 :=
  ⟨by norm_num +decide [processRegions, mergeMultilineElements, mergeLoop, mergeStep,
      flushAcc, freshFrag, mergedFrag, needSpaceB, canMergeFrag, hasUnderscore,
      hasCheckboxGlyph, detectLoop, detectElement, detectCheckboxes, scanChar,
      scanBoxesAux, matchBoxAt, sortByIdx, insertByIdx, effFontSize, effFontName, jsOrQ,
      jsOrS, calculateCharacterPositions, calcPositionsAux, getCharWidth,
      getFontWidthFactor, includesStr, charAdvance, findUnderscoreSegments, fusAux,
      isAlnumCh, mkUnderscoreRegion, mkCheckboxRegion, emitWithIdx, jsIdxOr, getContext,
      jsSubstring, jsTrim, jsWs, guessFieldType, combinedCtx, jsToLower,
      generateFieldName, splitWsRuns, splitWsAux, keepCh, natRepr, natToDigitsRev,
      digitChar, ftName, List.range, List.range.loop],
   by norm_num⟩

/-- Claim C5 amended: every region the pipeline emits with a
non-checkbox, non-radio field type (i.e. every underscore-derived
region) has width at least 20 — the source's minimum-width floor is 20
units, not 30 — and the emitted rectangle satisfies
x = positions[startOffset] and width = max(positions[endOffset] −
positions[startOffset], 20) whenever those two positions exist and are
nonzero (the source reads them through JS `||` fallbacks). -/
theorem underscore_region_geometry :
    (∀ (elements : List Elem) (r : Region), r ∈ processRegions elements →
      r.field_type ≠ FieldType.checkbox → r.field_type ≠ FieldType.radio →
      (20 : ℚ) ≤ r.width) ∧
    (∀ (e : Frag) (pos : List ℚ) (fs charW : ℚ) (sg : USeg) (idx : Nat) (v w : ℚ),
      pos.get? sg.startIndex = some v → v ≠ 0 →
      pos.get? sg.endIndex = some w → w ≠ 0 →
      (mkUnderscoreRegion e pos fs charW sg idx).x = v ∧
      (mkUnderscoreRegion e pos fs charW sg idx).width = max (w - v) 20) := by
  constructor
  · intro elements r hr hcb hrad
    obtain ⟨f, i, _, hme⟩ := mem_detectLoop _ _ _ hr
    rcases mem_detectElement f i r hme with ⟨cb, j, hcb2, hreq⟩ | ⟨sg, j, _, hreq⟩
    · exfalso
      rcases detectCheckboxes_fieldType f.Text cb hcb2 with hft | hft
      · exact hcb (by rw [hreq, mkCheckboxRegion_field_type, hft])
      · exact hrad (by rw [hreq, mkCheckboxRegion_field_type, hft])
    · rw [hreq, mkUnderscoreRegion_width]
      exact le_max_right _ _
  · intro e pos fs charW sg idx v w hv hv0 hw hw0
    have hx : jsIdxOr pos sg.startIndex e.Bounds.x0 = v := by
      simp only [jsIdxOr, hv, if_neg hv0]
    have hw2 : jsIdxOr pos sg.endIndex
        (jsIdxOr pos sg.startIndex e.Bounds.x0 + (sg.length : ℚ) * charW) = w := by
      simp only [jsIdxOr, hw, if_neg hw0]
    rw [mkUnderscoreRegion_x, mkUnderscoreRegion_width, hw2, hx]
    exact ⟨rfl, rfl⟩

theorem underscore_region_geometry_witness :
    (((⟨1, "text_1".toList, 0, 100, 700, 20, 12, FieldType.text,
        ⟨[], [], " _____ ".toList⟩, 8.4⟩ : Region) ∈
        processRegions [⟨some ("__".toList), ⟨100, 700, 110, 712⟩, 0, none, none⟩] ∧
      (⟨1, "text_1".toList, 0, 100, 700, 20, 12, FieldType.text,
        ⟨[], [], " _____ ".toList⟩, 8.4⟩ : Region).field_type ≠ FieldType.checkbox ∧
      (⟨1, "text_1".toList, 0, 100, 700, 20, 12, FieldType.text,
        ⟨[], [], " _____ ".toList⟩, 8.4⟩ : Region).field_type ≠ FieldType.radio) ∧
      (20 : ℚ) ≤ (⟨1, "text_1".toList, 0, 100, 700, 20, 12, FieldType.text,
        ⟨[], [], " _____ ".toList⟩, 8.4⟩ : Region).width) ∧
    ((List.get? [(3 : ℚ), 7] 0 = some 3 ∧ (3 : ℚ) ≠ 0 ∧
      List.get? [(3 : ℚ), 7] 1 = some 7 ∧ (7 : ℚ) ≠ 0) ∧
      ((mkUnderscoreRegion ⟨"__".toList, ⟨0, 0, 1, 1⟩, 0, none, none⟩ [(3 : ℚ), 7] 12 6
          ⟨0, 1, 2⟩ 5).x = 3 ∧
       (mkUnderscoreRegion ⟨"__".toList, ⟨0, 0, 1, 1⟩, 0, none, none⟩ [(3 : ℚ), 7] 12 6
          ⟨0, 1, 2⟩ 5).width = max ((7 : ℚ) - 3) 20)) :=
  ⟨⟨⟨by norm_num +decide [processRegions, mergeMultilineElements, mergeLoop, mergeStep,
      flushAcc, freshFrag, mergedFrag, needSpaceB, canMergeFrag, hasUnderscore,
      hasCheckboxGlyph, detectLoop, detectElement, detectCheckboxes, scanChar,
      scanBoxesAux, matchBoxAt, sortByIdx, insertByIdx, effFontSize, effFontName, jsOrQ,
      jsOrS, calculateCharacterPositions, calcPositionsAux, getCharWidth,
      getFontWidthFactor, includesStr, charAdvance, findUnderscoreSegments, fusAux,
      isAlnumCh, mkUnderscoreRegion, mkCheckboxRegion, emitWithIdx, jsIdxOr, getContext,
      jsSubstring, jsTrim, jsWs, guessFieldType, combinedCtx, jsToLower,
      generateFieldName, splitWsRuns, splitWsAux, keepCh, natRepr, natToDigitsRev,
      digitChar, ftName, List.range, List.range.loop], by decide, by decide⟩,
    underscore_region_geometry.1
      [⟨some ("__".toList), ⟨100, 700, 110, 712⟩, 0, none, none⟩]
      ⟨1, "text_1".toList, 0, 100, 700, 20, 12, FieldType.text,
        ⟨[], [], " _____ ".toList⟩, 8.4⟩
      (by norm_num +decide [processRegions, mergeMultilineElements, mergeLoop, mergeStep,
        flushAcc, freshFrag, mergedFrag, needSpaceB, canMergeFrag, hasUnderscore,
        hasCheckboxGlyph, detectLoop, detectElement, detectCheckboxes, scanChar,
        scanBoxesAux, matchBoxAt, sortByIdx, insertByIdx, effFontSize, effFontName, jsOrQ,
        jsOrS, calculateCharacterPositions, calcPositionsAux, getCharWidth,
        getFontWidthFactor, includesStr, charAdvance, findUnderscoreSegments, fusAux,
        isAlnumCh, mkUnderscoreRegion, mkCheckboxRegion, emitWithIdx, jsIdxOr, getContext,
        jsSubstring, jsTrim, jsWs, guessFieldType, combinedCtx, jsToLower,
        generateFieldName, splitWsRuns, splitWsAux, keepCh, natRepr, natToDigitsRev,
        digitChar, ftName, List.range, List.range.loop]) (by decide) (by decide)⟩,
   ⟨⟨by norm_num, by norm_num, by norm_num, by norm_num⟩,
    underscore_region_geometry.2 _ _ _ _ _ _ _ _ (by norm_num) (by norm_num)
      (by norm_num) (by norm_num)⟩⟩

/-! ### Claim C3: line merger pages and bounds -/

/-- Claim C3 counterexample: two same-page fragments merge (the second
starts 9 units left of the first's right edge, within the allowed
overlap), but the merged Bounds keep the first fragment's x0 = 100 even
though the componentwise union's x0 would be min(100, 96) = 96: the
source never updates Bounds[0]. -/
theorem merge_bounds_union_cex :
    mergeMultilineElements
      [⟨some ("__".toList), ⟨100, 0, 105, 10⟩, 0, none, none⟩,
       ⟨some ("__".toList), ⟨96, 0, 110, 10⟩, 0, none, none⟩] =
      [⟨"__ __".toList, ⟨100, 0, 110, 10⟩, 0, none, none⟩] ∧
    (100 : ℚ) ≠ min 100 96 :=
  ⟨by norm_num +decide [mergeMultilineElements, mergeLoop, mergeStep, flushAcc, freshFrag,
      mergedFrag, needSpaceB, canMergeFrag, hasUnderscore, hasCheckboxGlyph],
   by norm_num⟩

/-- Claim C3 amended: whenever the merge loop absorbs an incoming
element into the open accumulator (returns a merged accumulator and
flushes nothing), the element's page equals the accumulator's page (the
merger never merges fragments from different pages), and the merged
bounds take the minimum y0 and the maxima of x1 and y1 of the two
fragments while x0 stays the accumulator's (first fragment's) x0 — so
the merged bounds equal the componentwise union in y0, x1, y1 but not
necessarily in x0. -/
theorem mergeStep_merge_spec (a : Frag) (e : Elem) (m : Frag)
    (h : mergeStep (some a) e = (some m, [])) :
    e.Page = a.Page ∧ m.Page = a.Page ∧
    m.Bounds.x0 = a.Bounds.x0 ∧
    m.Bounds.y0 = min a.Bounds.y0 e.Bounds.y0 ∧
    m.Bounds.x1 = max a.Bounds.x1 e.Bounds.x1 ∧
    m.Bounds.y1 = max a.Bounds.y1 e.Bounds.y1 := by
  unfold mergeStep at h
  cases he : e.Text with
  | none =>
    rw [he] at h
    dsimp only at h
    simp [flushAcc] at h
  | some t =>
    rw [he] at h
    dsimp only at h
    by_cases ht : t = []
    · rw [if_pos ht] at h
      simp [flushAcc] at h
    · rw [if_neg ht] at h
      split at h
      · simp [flushAcc] at h
      · split at h
        · rename_i hcond
          simp only [Prod.mk.injEq, Option.some.injEq] at h
          obtain ⟨hm, -⟩ := h
          subst hm
          exact ⟨hcond.1, rfl, rfl, rfl, rfl, rfl⟩
        · simp at h

theorem mergeStep_merge_spec_witness :
    (mergeStep (some ⟨"__".toList, ⟨100, 0, 105, 10⟩, 0, none, none⟩)
        ⟨some ("__".toList), ⟨96, 0, 110, 10⟩, 0, none, none⟩ =
      (some ⟨"__ __".toList, ⟨100, 0, 110, 10⟩, 0, none, none⟩, [])) ∧
    ((⟨some ("__".toList), ⟨96, 0, 110, 10⟩, 0, none, none⟩ : Elem).Page =
      (⟨"__".toList, ⟨100, 0, 105, 10⟩, 0, none, none⟩ : Frag).Page ∧
     (⟨"__ __".toList, ⟨100, 0, 110, 10⟩, 0, none, none⟩ : Frag).Page =
      (⟨"__".toList, ⟨100, 0, 105, 10⟩, 0, none, none⟩ : Frag).Page ∧
     (⟨"__ __".toList, ⟨100, 0, 110, 10⟩, 0, none, none⟩ : Frag).Bounds.x0 =
      (⟨"__".toList, ⟨100, 0, 105, 10⟩, 0, none, none⟩ : Frag).Bounds.x0 ∧
     (⟨"__ __".toList, ⟨100, 0, 110, 10⟩, 0, none, none⟩ : Frag).Bounds.y0 =
      min (⟨"__".toList, ⟨100, 0, 105, 10⟩, 0, none, none⟩ : Frag).Bounds.y0
          (⟨some ("__".toList), ⟨96, 0, 110, 10⟩, 0, none, none⟩ : Elem).Bounds.y0 ∧
     (⟨"__ __".toList, ⟨100, 0, 110, 10⟩, 0, none, none⟩ : Frag).Bounds.x1 =
      max (⟨"__".toList, ⟨100, 0, 105, 10⟩, 0, none, none⟩ : Frag).Bounds.x1
          (⟨some ("__".toList), ⟨96, 0, 110, 10⟩, 0, none, none⟩ : Elem).Bounds.x1 ∧
     (⟨"__ __".toList, ⟨100, 0, 110, 10⟩, 0, none, none⟩ : Frag).Bounds.y1 =
      max (⟨"__".toList, ⟨100, 0, 105, 10⟩, 0, none, none⟩ : Frag).Bounds.y1
          (⟨some ("__".toList), ⟨96, 0, 110, 10⟩, 0, none, none⟩ : Elem).Bounds.y1) :=
  ⟨by norm_num +decide [mergeStep, flushAcc, freshFrag, mergedFrag, needSpaceB,
      canMergeFrag, hasUnderscore, hasCheckboxGlyph],
   mergeStep_merge_spec _ _ _
     (by norm_num +decide [mergeStep, flushAcc, freshFrag, mergedFrag, needSpaceB,
        canMergeFrag, hasUnderscore, hasCheckboxGlyph])⟩

/-! ### Claim C6: field-name uniqueness -/

theorem charVal_digitChar (d : Nat) (h : d < 10) : charVal (digitChar d) = d := by
  interval_cases d <;> decide

theorem isDigit_digitChar (d : Nat) (h : d < 10) : (digitChar d).isDigit = true := by
  interval_cases d <;> decide

theorem ofRevDigits_natToDigitsRev (fuel : Nat) :
    ∀ n : Nat, n ≤ fuel → ofRevDigits (natToDigitsRev fuel n) = n := by
  induction fuel with
  | zero =>
    intro n hn
    interval_cases n
    decide
  | succ fuel ih =>
    intro n hn
    rw [natToDigitsRev]
    by_cases h10 : n < 10
    · rw [if_pos h10]
      simp [ofRevDigits, charVal_digitChar n h10]
    · rw [if_neg h10]
      have hdiv : n / 10 ≤ fuel := by
        have h1 : n / 10 < n := Nat.div_lt_self (by omega) (by omega)
        omega
      rw [ofRevDigits, charVal_digitChar _ (Nat.mod_lt n (by omega)), ih _ hdiv]
      exact Nat.mod_add_div n 10

theorem decodeDigits_natRepr (n : Nat) : decodeDigits (natRepr n) = n := by
  unfold decodeDigits natRepr
  rw [List.reverse_reverse]
  exact ofRevDigits_natToDigitsRev (n + 1) n (Nat.le_succ n)

theorem natToDigitsRev_digits (fuel : Nat) :
    ∀ (n : Nat) (c : Char), c ∈ natToDigitsRev fuel n → c.isDigit = true := by
  induction fuel with
  | zero => intro n c h; simp [natToDigitsRev] at h
  | succ fuel ih =>
    intro n c h
    rw [natToDigitsRev] at h
    by_cases h10 : n < 10
    · rw [if_pos h10] at h
      rw [List.mem_singleton] at h
      subst h
      exact isDigit_digitChar n h10
    · rw [if_neg h10] at h
      rcases List.mem_cons.mp h with h | h
      · subst h
        exact isDigit_digitChar _ (Nat.mod_lt n (by omega))
      · exact ih _ _ h

theorem natRepr_digits (n : Nat) (c : Char) (h : c ∈ natRepr n) : c.isDigit = true := by
  rw [natRepr, List.mem_reverse] at h
  exact natToDigitsRev_digits _ _ _ h

theorem takeWhile_append_all (p : Char → Bool) (l1 l2 : Str)
    (h1 : ∀ c ∈ l1, p c = true) (h2 : ∀ c, l2.head? = some c → p c = false) :
    (l1 ++ l2).takeWhile p = l1 := by
  induction l1 with
  | nil =>
    cases l2 with
    | nil => rfl
    | cons d ds => simp [List.takeWhile_cons, h2 d rfl]
  | cons c cs ih =>
    rw [List.cons_append, List.takeWhile_cons, h1 c (List.mem_cons_self c cs), if_pos rfl,
      ih (fun x hx => h1 x (List.mem_cons_of_mem c hx))]

theorem dropWhile_not_underscore (l1 t : Str)
    (h : ∀ c ∈ l1, (!(c == '_')) = true) :
    (l1 ++ '_' :: t).dropWhile (fun c => !(c == '_')) = '_' :: t := by
  induction l1 with
  | nil => simp [List.dropWhile]
  | cons c cs ih =>
    rw [List.cons_append, List.dropWhile_cons, h c (List.mem_cons_self c cs), if_pos rfl]
    exact ih (fun x hx => h x (List.mem_cons_of_mem c hx))

theorem ftName_no_underscore (ft : FieldType) : ∀ c ∈ ftName ft, (!(c == '_')) = true := by
  cases ft <;> decide

theorem nameIdx_encode (pre : Str) (hpre : ∀ c ∈ pre, (!(c == '_')) = true) (i : Nat)
    (rest : Str) (hrest : rest = [] ∨ ∃ t, rest = '_' :: t) :
    nameIdx (pre ++ '_' :: (natRepr i ++ rest)) = i := by
  unfold nameIdx
  rw [dropWhile_not_underscore pre _ hpre]
  simp only [List.drop_succ_cons, List.drop_zero]
  rw [takeWhile_append_all Char.isDigit (natRepr i) rest (natRepr_digits i) ?_]
  · exact decodeDigits_natRepr i
  · intro c hc
    rcases hrest with hrest | ⟨t, hrest⟩
    · subst hrest; simp at hc
    · subst hrest
      simp only [List.head?_cons, Option.some.injEq] at hc
      subst hc
      decide

theorem nameIdx_bare (ft : FieldType) (i : Nat) :
    nameIdx (ftName ft ++ ['_'] ++ natRepr i) = i := by
  have hsh : ftName ft ++ ['_'] ++ natRepr i = ftName ft ++ '_' :: (natRepr i ++ []) := by
    simp
  rw [hsh]
  exact nameIdx_encode _ (ftName_no_underscore ft) i [] (Or.inl rfl)

theorem nameIdx_with_slug (ft : FieldType) (i : Nat) (s : Str) :
    nameIdx (ftName ft ++ ['_'] ++ natRepr i ++ ['_'] ++ s) = i := by
  have hsh : ftName ft ++ ['_'] ++ natRepr i ++ ['_'] ++ s =
      ftName ft ++ '_' :: (natRepr i ++ ('_' :: s)) := by simp
  rw [hsh]
  exact nameIdx_encode _ (ftName_no_underscore ft) i _ (Or.inr ⟨s, rfl⟩)

theorem nameIdx_generateFieldName (context : Ctx) (i : Nat) (ft : FieldType) :
    nameIdx (generateFieldName context i ft) = i := by
  unfold generateFieldName
  split
  · exact nameIdx_bare ft i
  · dsimp only
    split
    · exact nameIdx_with_slug ft i _
    · exact nameIdx_bare ft i

theorem mkCheckboxRegion_id (e : Frag) (pos : List ℚ) (fs : ℚ) (cb : CBMatch)
    (idx : Nat) : (mkCheckboxRegion e pos fs cb idx).id = idx := rfl

theorem mkCheckboxRegion_field_name (e : Frag) (pos : List ℚ) (fs : ℚ) (cb : CBMatch)
    (idx : Nat) :
    (mkCheckboxRegion e pos fs cb idx).field_name =
      ftName cb.fieldType ++ ['_'] ++ natRepr idx := rfl

theorem mkUnderscoreRegion_id (e : Frag) (pos : List ℚ) (fs charW : ℚ) (sg : USeg)
    (idx : Nat) : (mkUnderscoreRegion e pos fs charW sg idx).id = idx := by
  simp only [mkUnderscoreRegion]

theorem mkUnderscoreRegion_field_name (e : Frag) (pos : List ℚ) (fs charW : ℚ)
    (sg : USeg) (idx : Nat) :
    (mkUnderscoreRegion e pos fs charW sg idx).field_name =
      generateFieldName (getContext e.Text sg.startIndex sg.endIndex) idx
        (guessFieldType (getContext e.Text sg.startIndex sg.endIndex) e.Text) := by
  simp only [mkUnderscoreRegion]

theorem emitWithIdx_length {α : Type} (f : α → Nat → Region) (l : List α) :
    ∀ i, (emitWithIdx f l i).length = l.length := by
  induction l with
  | nil => intro i; rfl
  | cons a as ih => intro i; simp [emitWithIdx, ih]

theorem emitWithIdx_map_id {α : Type} (f : α → Nat → Region)
    (hf : ∀ a j, (f a j).id = j) (l : List α) :
    ∀ i, (emitWithIdx f l i).map (fun r => r.id) = List.range' i l.length := by
  induction l with
  | nil => intro i; rfl
  | cons a as ih =>
    intro i
    simp only [emitWithIdx, List.map_cons, hf, ih (i + 1), List.length_cons]
    rfl

theorem detectElement_snd (e : Frag) (startIdx : Nat) :
    (detectElement e startIdx).2 = startIdx + (detectElement e startIdx).1.length := by
  simp only [detectElement, List.length_append, emitWithIdx_length]
  omega

theorem detectElement_map_id (e : Frag) (startIdx : Nat) :
    (detectElement e startIdx).1.map (fun r => r.id) =
      List.range' startIdx (detectElement e startIdx).1.length := by
  simp only [detectElement, List.map_append, List.length_append, emitWithIdx_length]
  rw [emitWithIdx_map_id _ (fun a j => mkCheckboxRegion_id e _ _ a j),
      emitWithIdx_map_id _ (fun a j => mkUnderscoreRegion_id e _ _ _ a j)]
  have := List.range'_append startIdx (detectCheckboxes e.Text).length
    (if '_' ∈ e.Text then findUnderscoreSegments e.Text 2 else []).length 1
  simp only [one_mul] at this
  rw [this]
  rw [Nat.add_comm (if '_' ∈ e.Text then findUnderscoreSegments e.Text 2 else []).length
    (detectCheckboxes e.Text).length]

theorem detectLoop_map_id (frags : List Frag) :
    ∀ startIdx, (detectLoop frags startIdx).map (fun r => r.id) =
      List.range' startIdx (detectLoop frags startIdx).length := by
  induction frags with
  | nil => intro startIdx; rfl
  | cons f fs ih =>
    intro startIdx
    rw [detectLoop]
    simp only [List.map_append, List.length_append]
    rw [detectElement_map_id, ih, detectElement_snd]
    have := List.range'_append startIdx (detectElement f startIdx).1.length
      (detectLoop fs (startIdx + (detectElement f startIdx).1.length)).length 1
    simp only [one_mul] at this
    rw [this]
    rw [Nat.add_comm (detectLoop fs (startIdx + (detectElement f startIdx).1.length)).length
      (detectElement f startIdx).1.length]

theorem nameIdx_of_mem_detectElement (e : Frag) (startIdx : Nat) (r : Region)
    (h : r ∈ (detectElement e startIdx).1) : nameIdx r.field_name = r.id := by
  rcases mem_detectElement e startIdx r h with ⟨cb, j, _, hr⟩ | ⟨sg, j, _, hr⟩
  · rw [hr, mkCheckboxRegion_field_name, mkCheckboxRegion_id]
    exact nameIdx_bare cb.fieldType j
  · rw [hr, mkUnderscoreRegion_field_name, mkUnderscoreRegion_id]
    exact nameIdx_generateFieldName _ j _

/-- Claim C6: across one processing run every emitted field name is
distinct — uniqueness comes from the monotonically increasing index
component encoded in the name, never from the context slug — and, at the
namer level, two different indices never produce the same name, whatever
the contexts and field types. -/
theorem field_names_unique :
    (∀ elements : List Elem,
      ((processRegions elements).map (fun r => r.field_name)).Pairwise (· ≠ ·)) ∧
    (∀ (c1 c2 : Ctx) (ft1 ft2 : FieldType) (i j : Nat), i ≠ j →
      generateFieldName c1 i ft1 ≠ generateFieldName c2 j ft2) := by
  constructor
  · intro elements
    have hids : ((processRegions elements).map (fun r => r.id)).Nodup := by
      rw [show processRegions elements = detectLoop (mergeMultilineElements elements) 1
        from rfl, detectLoop_map_id]
      exact List.nodup_range' _ _
    have hids2 : List.Pairwise (fun a b => a ≠ b)
        ((processRegions elements).map (fun r => r.id)) := hids
    rw [List.pairwise_map] at hids2
    have hmem : ∀ r ∈ processRegions elements, nameIdx r.field_name = r.id := by
      intro r hr
      obtain ⟨f, i2, _, hme⟩ := mem_detectLoop _ _ _ hr
      exact nameIdx_of_mem_detectElement _ _ _ hme
    rw [List.pairwise_map]
    exact hids2.imp_of_mem
      (fun {a b} ha hb hab heq => hab (by rw [← hmem a ha, heq, hmem b hb]))
  · intro c1 c2 ft1 ft2 i j hij heq
    apply hij
    rw [← nameIdx_generateFieldName c1 i ft1, heq, nameIdx_generateFieldName]

/-! ### Claim C1: underscore segmentation invariants -/

theorem take_extend (text : Str) (i : Nat) (c : Char) (rest : Str)
    (hdrop : text.drop i = c :: rest) (s : Nat) (hs : s ≤ i) :
    (text.drop s).take (i + 1 - s) = (text.drop s).take (i - s) ++ [c] := by
  have h1 : i + 1 - s = (i - s) + 1 := by omega
  rw [h1, List.take_add]
  congr 1
  rw [List.drop_drop]
  have h2 : s + (i - s) = i := by omega
  rw [h2, hdrop]
  rfl

theorem fusAux_invariant (text : Str) (minLength : Nat) :
    ∀ (rest : Str) (i : Nat) (inU : Bool) (start cnt : Nat) (segs : List USeg),
    text.drop i = rest →
    (inU = true →
      start < i ∧ cnt = ((text.drop start).take (i - start)).count '_' ∧ 1 ≤ cnt) →
    (∀ s ∈ segs, s.startIndex ≤ s.endIndex ∧ s.endIndex < text.length ∧
        minLength ≤ s.length ∧ s.length = undCount text s.startIndex s.endIndex) →
    List.Chain' (fun a b => a.endIndex < b.startIndex) segs →
    (∀ s ∈ segs, s.endIndex < i) →
    (inU = true → ∀ s ∈ segs, s.endIndex < start) →
    (∀ s ∈ fusAux text.length minLength rest i inU start cnt segs,
        s.startIndex ≤ s.endIndex ∧ s.endIndex < text.length ∧
        minLength ≤ s.length ∧ s.length = undCount text s.startIndex s.endIndex) ∧
    List.Chain' (fun a b => a.endIndex < b.startIndex)
      (fusAux text.length minLength rest i inU start cnt segs) := by
  intro rest
  induction rest with
  | nil =>
    intro i inU start cnt segs hdrop hU h3 h4 h5a h5b
    rw [fusAux]
    cases inU with
    | false =>
      simp only [Bool.false_eq_true, if_false]
      exact ⟨h3, h4⟩
    | true =>
      obtain ⟨hsi, hcnt, hc1⟩ := hU rfl
      have hin : text.length ≤ i := List.drop_eq_nil_iff.mp hdrop
      have hstart : start < text.length := by
        by_contra hcon
        push_neg at hcon
        rw [List.drop_eq_nil_iff.mpr hcon] at hcnt
        simp at hcnt
        omega
      rw [if_pos rfl]
      by_cases hmin : minLength ≤ cnt
      · rw [if_pos hmin]
        have hck : cnt = undCount text start (text.length - 1) := by
          have e1 : (text.drop start).take (i - start) = text.drop start :=
            List.take_of_length_le (by rw [List.length_drop]; omega)
          have e2 : (text.drop start).take (text.length - 1 + 1 - start) = text.drop start :=
            List.take_of_length_le (by rw [List.length_drop]; omega)
          rw [hcnt, e1]
          simp only [undCount]
          rw [e2]
        constructor
        · intro s hs
          rcases List.mem_append.mp hs with hs | hs
          · exact h3 s hs
          · rw [List.mem_singleton] at hs
            subst hs
            exact ⟨show start ≤ text.length - 1 from by omega,
              show text.length - 1 < text.length from by omega, hmin, hck⟩
        · rw [List.chain'_append]
          refine ⟨h4, List.chain'_singleton _, ?_⟩
          intro x hx y hy
          simp only [List.head?_cons, Option.mem_def, Option.some_inj] at hy
          subst hy
          exact h5b rfl x (List.mem_of_mem_getLast? hx)
      · rw [if_neg hmin]
        exact ⟨h3, h4⟩
  | cons c rest' ih =>
    intro i inU start cnt segs hdrop hU h3 h4 h5a h5b
    have hlen : i < text.length := by
      by_contra hcon
      push_neg at hcon
      rw [List.drop_eq_nil_iff.mpr hcon] at hdrop
      exact List.noConfusion hdrop
    have hdrop' : text.drop (i + 1) = rest' := by
      have hdd := List.drop_drop 1 i text
      rw [hdrop] at hdd
      simpa using hdd.symm
    rw [fusAux]
    by_cases hc : c = '_'
    · rw [if_pos hc]
      cases inU with
      | true =>
        rw [if_pos rfl]
        obtain ⟨hsi, hcnt, hc1⟩ := hU rfl
        apply ih (i + 1) true start (cnt + 1) segs hdrop' ?_ h3 h4 ?_ ?_
        · intro _
          refine ⟨by omega, ?_, by omega⟩
          rw [take_extend text i c rest' hdrop start (by omega), List.count_append, ← hcnt]
          subst hc
          simp [List.count_singleton]
        · intro s hs
          have := h5a s hs
          omega
        · intro _ s hs
          exact h5b rfl s hs
      | false =>
        simp only [Bool.false_eq_true, if_false]
        apply ih (i + 1) true i 1 segs hdrop' ?_ h3 h4 ?_ ?_
        · intro _
          refine ⟨by omega, ?_, le_refl 1⟩
          have ht1 : (text.drop i).take (i + 1 - i) = [c] := by
            rw [show i + 1 - i = 1 from by omega, hdrop]
            rfl
          rw [ht1]
          subst hc
          simp [List.count_singleton]
        · intro s hs
          have := h5a s hs
          omega
        · intro _ s hs
          exact h5a s hs
    · rw [if_neg hc]
      cases inU with
      | false =>
        simp only [Bool.false_eq_true, if_false]
        apply ih (i + 1) false start cnt segs hdrop' (by simp) h3 h4 ?_ (by simp)
        intro s hs
        have := h5a s hs
        omega
      | true =>
        rw [if_pos rfl]
        obtain ⟨hsi, hcnt, hc1⟩ := hU rfl
        by_cases hbr : (isAlnumCh c || (c == ' ' && rest'.head? == some ' ')
            || (c == ',' && !(rest'.head? == some '_'))) = true
        · rw [if_pos hbr]
          by_cases hmin : minLength ≤ cnt
          · rw [if_pos hmin]
            apply ih (i + 1) false start 0 (segs ++ [USeg.mk start (i - 1) cnt]) hdrop'
              (by simp) ?_ ?_ ?_ (by simp)
            · intro s hs
              rcases List.mem_append.mp hs with hs | hs
              · exact h3 s hs
              · rw [List.mem_singleton] at hs
                subst hs
                refine ⟨show start ≤ i - 1 from by omega,
                  show i - 1 < text.length from by omega, hmin, ?_⟩
                show cnt = undCount text start (i - 1)
                simp only [undCount]
                rw [show i - 1 + 1 - start = i - start from by omega]
                exact hcnt
            · rw [List.chain'_append]
              refine ⟨h4, List.chain'_singleton _, ?_⟩
              intro x hx y hy
              simp only [List.head?_cons, Option.mem_def, Option.some_inj] at hy
              subst hy
              exact h5b rfl x (List.mem_of_mem_getLast? hx)
            · intro s hs
              rcases List.mem_append.mp hs with hs | hs
              · have := h5a s hs
                omega
              · rw [List.mem_singleton] at hs
                subst hs
                show i - 1 < i + 1
                omega
          · rw [if_neg hmin]
            apply ih (i + 1) false start 0 segs hdrop' (by simp) h3 h4 ?_ (by simp)
            intro s hs
            have := h5a s hs
            omega
        · rw [if_neg hbr]
          apply ih (i + 1) true start cnt segs hdrop' ?_ h3 h4 ?_ ?_
          · intro _
            refine ⟨by omega, ?_, hc1⟩
            rw [take_extend text i c rest' hdrop start (by omega), List.count_append, ← hcnt]
            have : List.count '_' [c] = 0 := by
              simp [List.count_singleton, hc]
            omega
          · intro s hs
            have := h5a s hs
            omega
          · intro _ s hs
            exact h5b rfl s hs

theorem chain_lt_all (a : USeg) (l : List USeg)
    (hwf : ∀ s ∈ l, s.startIndex ≤ s.endIndex)
    (hch : List.Chain (fun x y => x.endIndex < y.startIndex) a l) :
    ∀ b ∈ l, a.endIndex < b.startIndex := by
  induction l generalizing a with
  | nil =>
    intro b hb
    cases hb
  | cons x xs ih =>
    intro b hb
    cases hch with
    | cons hax hch2 =>
      rcases List.mem_cons.mp hb with hb | hb
      · subst hb
        exact hax
      · have hx := ih x (fun s hs => hwf s (List.mem_cons_of_mem x hs)) hch2 b hb
        have hxx : x.startIndex ≤ x.endIndex := hwf x (List.mem_cons_self x xs)
        omega

theorem chain_wf_pairwise (l : List USeg)
    (hwf : ∀ s ∈ l, s.startIndex ≤ s.endIndex)
    (hch : List.Chain' (fun a b => a.endIndex < b.startIndex) l) :
    List.Pairwise (fun a b => a.endIndex < b.startIndex) l := by
  induction l with
  | nil => exact List.Pairwise.nil
  | cons a l ih =>
    have hch2 : List.Chain (fun x y => x.endIndex < y.startIndex) a l := hch
    refine List.Pairwise.cons ?_ ?_
    · exact chain_lt_all a l (fun s hs => hwf s (List.mem_cons_of_mem a hs)) hch2
    · apply ih (fun s hs => hwf s (List.mem_cons_of_mem a hs))
      cases l with
      | nil => exact trivial
      | cons x xs =>
        cases hch2 with
        | cons _ h => exact h

/-- Claim C1: every segment the underscore detector emits for minimum
length 2 spans at least 2 underscore characters (counting the
underscores inside its offset range — a run here tolerates the
non-breaking characters the scanner skips over, as the spec's run
definition does), the emitted segments are pairwise disjoint and ordered
by strictly increasing offset, and every segment satisfies
0 <= startIndex <= endIndex < length of the text. -/
theorem findUnderscoreSegments_spec (text : Str) :
    (∀ s ∈ findUnderscoreSegments text 2,
        s.startIndex ≤ s.endIndex ∧ s.endIndex < text.length ∧
        2 ≤ undCount text s.startIndex s.endIndex) ∧
    List.Pairwise (fun a b => a.endIndex < b.startIndex)
      (findUnderscoreSegments text 2) := by
  have h := fusAux_invariant text 2 text 0 false 0 0 []
    (by simp) (by simp) (by simp) (by simp) (by simp) (by simp)
  rw [show fusAux text.length 2 text 0 false 0 0 [] = findUnderscoreSegments text 2
    from rfl] at h
  refine ⟨?_, ?_⟩
  · intro s hs
    obtain ⟨ha, hb, hmin, hcount⟩ := h.1 s hs
    exact ⟨ha, hb, hcount ▸ hmin⟩
  · exact chain_wf_pairwise _ (fun s hs => (h.1 s hs).1) h.2

theorem findUnderscoreSegments_spec_witness :
    ((⟨6, 9, 3⟩ : USeg) ∈ findUnderscoreSegments ("Name: ___ x".toList) 2) ∧
    (6 ≤ 9 ∧ 9 < ("Name: ___ x".toList).length ∧
      2 ≤ undCount ("Name: ___ x".toList) 6 9) :=
  ⟨by decide,
   (findUnderscoreSegments_spec ("Name: ___ x".toList)).1 (USeg.mk 6 9 3) (by decide)⟩

theorem field_names_unique_witness :
    ((1 : Nat) ≠ 2) ∧
    generateFieldName ⟨"Buyer".toList, [], []⟩ 1 FieldType.text ≠
      generateFieldName ⟨"Buyer".toList, [], []⟩ 2 FieldType.text :=
  ⟨by decide,
   field_names_unique.2 ⟨"Buyer".toList, [], []⟩ ⟨"Buyer".toList, [], []⟩
     FieldType.text FieldType.text 1 2 (by decide)⟩
